import Mathlib

/-!
Verification development for the Wattpad PDF downloader repository.

The repository contains three server variants and a browser client:
* `src/server.js` (first half): the local server, with `htmlToText`,
  `parseStorytextData`, `getWattpadSession`, `toAsciiFilename`, `safeText`
  and the `POST /api/generate-pdf` assembler (title page, table of
  contents, chapter pages, end page, piped into the response).
* `src/server.js` (second half): the Vercel variant.
* `src/unnamed/part_000`: the "Lightning" Vercel variant, with
  `refreshSession`, `fetchChapterContent(id, retry)`, `parseStoryData`,
  the batched `Promise.all` fetch loop, and a buffering assembler that
  collects the PDF into one `Buffer` before sending it.
* `src/public/app.js`: the browser client, with `parseStoryTextResponse`
  and its longest-string-field fallback.

The definitions below are shallow embeddings of those functions.
JavaScript values that can flow through the parsing code are modelled by
`JSVal`; the external collaborators (cheerio's HTML parsing,
`JSON.parse`, the network) are modelled explicitly where the code's
behaviour depends on them.
-/

/-- Model of the JavaScript values that reach the storytext parsers:
`null`, `undefined`, strings, numbers, booleans, arrays and plain
objects (an object is a list of field-name/value pairs, first binding
wins on lookup). -/
inductive JSVal where
  | jsNull
  | jsUndefined
  | jsStr (s : String)
  | jsNum (n : Int)
  | jsBool (b : Bool)
  | jsArr (elems : List JSVal)
  | jsObj (fields : List (String × JSVal))
  deriving Repr

/-- Is the value `null` or `undefined` (the two JS "nullish" values that
make a property access throw and that `??` skips over)? -/
def JSVal.isNullish : JSVal → Bool
  | .jsNull => true
  | .jsUndefined => true
  | _ => false

/-- JS property access `v.name` for values on which it cannot throw
(everything except `null`/`undefined`): objects look the field up
(first binding wins, missing fields give `undefined`), and property
access on primitives and arrays for the field names the sources use
(`text`, `content`, `body`, `paragraph`, `data`) yields `undefined`. -/
def getFieldU (v : JSVal) (name : String) : JSVal :=
  match v with
  | .jsObj fields =>
    match fields.lookup name with
    | some w => w
    | none => .jsUndefined
  | _ => .jsUndefined

/-- JS `a ?? b`: keep `a` unless it is nullish. -/
def jsCoalesce (a b : JSVal) : JSVal :=
  if a.isNullish then b else a

/-- JS truthiness test `!v` (negated): `''`, `0`, `false`, `null`,
`undefined` are falsy. -/
def JSVal.isTruthy : JSVal → Bool
  | .jsNull => false
  | .jsUndefined => false
  | .jsStr s => !(s = "")
  | .jsNum n => !(n = 0)
  | .jsBool b => b
  | .jsArr _ => true
  | .jsObj _ => true

mutual

/-- JS `String(v)` conversion for the values of the model:
`String(null) = "null"`, `String(undefined) = "undefined"`, arrays join
their elements with `","` (nullish elements become empty), and plain
objects print as `[object Object]`. -/
def jsToString : JSVal → String
  | .jsNull => "null"
  | .jsUndefined => "undefined"
  | .jsStr s => s
  | .jsNum n => toString n
  | .jsBool b => if b then "true" else "false"
  | .jsArr elems => jsListToString elems
  | .jsObj _ => "[object Object]"

/-- Model of `Array.prototype.join(',')` as used by JS array stringification:
nullish elements contribute the empty string. -/
def jsListToString : List JSVal → String
  | [] => ""
  | x :: rest =>
    (match x with
     | .jsNull => ""
     | .jsUndefined => ""
     | v => jsToString v)
    ++ (if rest.isEmpty then "" else ",") ++ jsListToString rest

end

/-- Is the character horizontal whitespace in the sense of the
`/[ \t]+/` regex? -/
def isHorizWs (c : Char) : Bool := c = ' ' || c = '\t'

/-- Is the character whitespace for JS `String.prototype.trim`?  (After
the printable-ASCII filter and the markup pipeline only these ASCII
whitespace characters can occur.) -/
def isJsWs (c : Char) : Bool :=
  c = ' ' || c = '\t' || c = '\n' || c = '\r' || c = '\x0b' || c = '\x0c'

/-- JS `String.prototype.trim` on a character list: drop whitespace from
both ends. -/
def jsTrim (l : List Char) : List Char :=
  ((l.dropWhile isJsWs).reverse.dropWhile isJsWs).reverse

/-- JS `String.prototype.trim`. -/
def jsTrimString (s : String) : String := String.mk (jsTrim s.data)

/-- JS `s.startsWith(c)` for a one-character prefix. -/
def startsWithChar (s : String) (c : Char) : Bool := s.data.head? == some c

/-! ### The markup model

`htmlToText` in all three server variants runs cheerio over the
fragment, replaces `<br>` elements with a newline, replaces each
`<p>`/`<div>` element whose trimmed text is non-empty with that trimmed
text followed by a blank line, takes the document text, and
post-processes it with
`.replace(/[ \t]+/g, ' ').replace(/\n{4,}/g, '\n\n\n').trim()`.

cheerio (the external markup parser) is modelled by `Html` nodes and the
small fragment parser `parseHtmlNodes`, which covers the fragment
language the repository's payloads use (`<p>`, `<div>`, `<br>`, text). -/

/-- A parsed markup node: text, a `<br>`, a `<p>`/`<div>` element with
children, or any other element (left in place by the pipeline, its
children still processed). -/
inductive Html where
  | text (s : String)
  | br
  | pTag (children : List Html)
  | divTag (children : List Html)
  deriving Repr

mutual

/-- The text content of a node after `$('br').replaceWith('\n')`:
concatenated text of all descendants, with `<br>` contributing a
newline (cheerio's `$(el).text()` on the modified document). -/
def htmlText : Html → String
  | .text s => s
  | .br => "\n"
  | .pTag cs => htmlTextList cs
  | .divTag cs => htmlTextList cs

def htmlTextList : List Html → String
  | [] => ""
  | n :: rest => htmlText n ++ htmlTextList rest

end

mutual

/-- One node's contribution to `$.text()` after the replacement pass:
`<br>` became `"\n"`; a `<p>`/`<div>` whose trimmed text is non-empty
was replaced by that trimmed text plus `"\n\n"`, otherwise the element
(and its, then all-whitespace, content) was left in place. -/
def stripNode : Html → String
  | .text s => s
  | .br => "\n"
  | .pTag cs =>
    let t := jsTrimString (htmlTextList cs)
    if t = "" then htmlTextList cs else t ++ "\n\n"
  | .divTag cs =>
    let t := jsTrimString (htmlTextList cs)
    if t = "" then htmlTextList cs else t ++ "\n\n"

def stripNodeList : List Html → String
  | [] => ""
  | n :: rest => stripNode n ++ stripNodeList rest

end

/-- The replacement `.replace(/[ \t]+/g, ' ')`: every maximal run of spaces/tabs becomes
one space.  The boolean argument records whether a run is pending. -/
def collapseHorizAux : Bool → List Char → List Char
  | b, [] => if b then [' '] else []
  | b, c :: rest =>
    if isHorizWs c then collapseHorizAux true rest
    else (if b then [' '] else []) ++ c :: collapseHorizAux false rest

/-- The replacement `.replace(/\n{4,}/g, '\n\n\n')`: runs of four or more newlines
become exactly three; shorter runs are kept.  The counter is the number
of pending newlines. -/
def collapseNlAux : Nat → List Char → List Char
  | n, [] => List.replicate (min n 3) '\n'
  | n, c :: rest =>
    if c = '\n' then collapseNlAux (n + 1) rest
    else List.replicate (min n 3) '\n' ++ c :: collapseNlAux 0 rest

/-- The post-processing tail of `htmlToText`:
`.replace(/[ \t]+/g, ' ').replace(/\n{4,}/g, '\n\n\n').trim()`. -/
def postProcess (s : String) : String :=
  String.mk (jsTrim (collapseNlAux 0 (collapseHorizAux false s.data)))

/-- Model of cheerio's fragment parsing for the markup shapes the
repository's payloads contain: `<p>…</p>`, `<div>…</div>`, `<br>` /
`<br/>`, closing tags, and plain text (any other character data is
text).  Fuel-bounded recursive descent; the fuel passed by
`parseHtmlNodes` is ample for every input. -/
def parseHtmlAux : Nat → List Char → List Html × List Char
  | 0, cs => ([], cs)
  | _ + 1, [] => ([], [])
  | _ + 1, cs@('<' :: '/' :: _) => ([], cs)
  | fuel + 1, '<' :: 'b' :: 'r' :: '>' :: rest =>
    let (ns, r) := parseHtmlAux fuel rest
    (.br :: ns, r)
  | fuel + 1, '<' :: 'b' :: 'r' :: '/' :: '>' :: rest =>
    let (ns, r) := parseHtmlAux fuel rest
    (.br :: ns, r)
  | fuel + 1, '<' :: 'p' :: '>' :: rest =>
    let (children, r1) := parseHtmlAux fuel rest
    let r2 := if r1.take 4 = "</p>".data then r1.drop 4 else r1
    let (ns, r3) := parseHtmlAux fuel r2
    (.pTag children :: ns, r3)
  | fuel + 1, '<' :: 'd' :: 'i' :: 'v' :: '>' :: rest =>
    let (children, r1) := parseHtmlAux fuel rest
    let r2 := if r1.take 6 = "</div>".data then r1.drop 6 else r1
    let (ns, r3) := parseHtmlAux fuel r2
    (.divTag children :: ns, r3)
  | fuel + 1, c :: rest =>
    let chunk := rest.takeWhile (fun d => !(d = '<'))
    let (ns, r) := parseHtmlAux fuel (rest.dropWhile (fun d => !(d = '<')))
    (.text (String.mk (c :: chunk)) :: ns, r)

/-- Parse a markup fragment into nodes (model of `cheerio.load`). -/
def parseHtmlNodes (s : String) : List Html :=
  (parseHtmlAux (2 * s.length + 2) s.data).1

/-- Embedding of `htmlToText(html)` from `src/server.js` (both variants share the
body; `src/unnamed/part_000` adds a try/catch whose handler is
unreachable for the total markup model): empty/non-string input gives
`''`; otherwise parse, replace `<br>` with newlines, replace non-blank
`<p>`/`<div>` elements with their trimmed text plus a blank line, take
the text, and post-process. -/
def htmlToText (s : String) : String :=
  if s = "" then ""
  else postProcess (stripNodeList (parseHtmlNodes s))

/-- One array element of `parseStorytextData` (`src/server.js`, local
variant): a string element is stripped directly; a nullish element makes
the property access `item.text` throw; otherwise the priority chain
`item.text ?? item.content ?? item.body ?? item.paragraph ?? ''` is
stringified and stripped. -/
def serverItemFrag (item : JSVal) : Except String String :=
  match item with
  | .jsStr s => .ok (htmlToText s)
  | .jsNull => .error "Cannot read properties of null (reading 'text')"
  | .jsUndefined => .error "Cannot read properties of undefined (reading 'text')"
  | v =>
    .ok (htmlToText (jsToString
      (jsCoalesce (getFieldU v "text")
        (jsCoalesce (getFieldU v "content")
          (jsCoalesce (getFieldU v "body")
            (jsCoalesce (getFieldU v "paragraph") (.jsStr "")))))))

/-- Embedding of `parseStorytextData(data)` from `src/server.js` (local variant):
arrays map each element through the field probe and `htmlToText`, drop
falsy (empty) fragments, and join with a blank line; non-null objects
probe `text ?? content ?? body ?? data ?? ''`; strings are stripped
directly; anything else gives `''`.  The result is in `Except` because
the array branch throws on nullish elements. -/
def parseStorytextData : JSVal → Except String String
  | .jsArr items => do
    let frags ← items.mapM serverItemFrag
    return String.intercalate "\n\n" (frags.filter (fun s => !(s = "")))
  | .jsObj fields =>
    .ok (htmlToText (jsToString
      (jsCoalesce (getFieldU (.jsObj fields) "text")
        (jsCoalesce (getFieldU (.jsObj fields) "content")
          (jsCoalesce (getFieldU (.jsObj fields) "body")
            (jsCoalesce (getFieldU (.jsObj fields) "data") (.jsStr "")))))))
  | .jsStr s => .ok (htmlToText s)
  | _ => .ok ""

/-- One array element of `parseStoryData` (`src/unnamed/part_000`):
`htmlToText(String(typeof i === 'string' ? i : (i.text ?? i.content ?? '')))`;
a nullish element makes `i.text` throw. -/
def lightningItemFrag (item : JSVal) : Except String String :=
  match item with
  | .jsStr s => .ok (htmlToText s)
  | .jsNull => .error "Cannot read properties of null (reading 'text')"
  | .jsUndefined => .error "Cannot read properties of undefined (reading 'text')"
  | v =>
    .ok (htmlToText (jsToString
      (jsCoalesce (getFieldU v "text")
        (jsCoalesce (getFieldU v "content") (.jsStr "")))))

/-- Embedding of `parseStoryData(data)` from `src/unnamed/part_000`: arrays map, drop
falsy fragments, join with a blank line; truthy objects probe
`text ?? content ?? ''`; everything else (including `null`) is
stringified and stripped. -/
def parseStoryData : JSVal → Except String String
  | .jsArr items => do
    let frags ← items.mapM lightningItemFrag
    return String.intercalate "\n\n" (frags.filter (fun s => !(s = "")))
  | .jsObj fields =>
    .ok (htmlToText (jsToString
      (jsCoalesce (getFieldU (.jsObj fields) "text")
        (jsCoalesce (getFieldU (.jsObj fields) "content") (.jsStr "")))))
  | v => .ok (htmlToText (jsToString v))

/-! ### Session and fetch model (`src/unnamed/part_000`)

`refreshSession` performs the handshake against the host's root page and
stores the joined `set-cookie` pairs in the module-level
`_sessionCookies` (left unchanged when the request throws).
`fetchChapterContent(id, retry)` acquires a session if the cookie string
is empty, issues the storytext request with the raw body preserved,
handles the `"Array"` denial sentinel by invalidating the session and
recursing with the budget decremented, otherwise JSON-parses bodies that
look like JSON and hands the result to `parseStoryData`; any exception
retries while budget remains and then yields the
`[Content unavailable: …]` placeholder.

The network and `JSON.parse` are modelled by an oracle: `handshake k` is
the outcome of the `k`-th handshake (`none` = the request threw),
`storytext k` the outcome of the `k`-th storytext request, and
`jsonDecode` the external JSON parser (`none` = `JSON.parse` threw, in
which case the code keeps the raw string). -/

/-- The observable effect state threaded through the fetcher: the shared
cookie string, and counters of handshakes issued, storytext requests
issued, and sentinel-triggered session invalidations. -/
structure FetchSt where
  cookies : String
  handshakes : Nat
  gets : Nat
  invalidations : Nat
  deriving Repr, DecidableEq

/-- The environment of external effects observed by one fetch. -/
structure NetOracle where
  handshake : Nat → Option String
  storytext : Nat → Except String String
  jsonDecode : String → Option JSVal

/-- Embedding of `refreshSession()` from `src/unnamed/part_000`: on success the
cookie string becomes the joined `set-cookie` pairs; on an exception the
cookie string is left unchanged (the catch only logs). -/
def refreshSession (o : NetOracle) (st : FetchSt) : FetchSt :=
  match o.handshake st.handshakes with
  | some ck => { st with cookies := ck, handshakes := st.handshakes + 1 }
  | none => { st with handshakes := st.handshakes + 1 }

/-- The parse step at the end of `fetchChapterContent`: bodies whose
trimmed form starts with `[` or `{` go through `JSON.parse` (keeping the
raw string when parsing throws), everything else stays a raw string;
the result is handed to `parseStoryData`, whose exceptions propagate to
the enclosing catch. -/
def runStorytextParse (o : NetOracle) (body : String) : Except String String :=
  let t := jsTrimString body
  let parsed : JSVal :=
    if startsWithChar t '[' || startsWithChar t '{' then
      match o.jsonDecode body with
      | some v => v
      | none => .jsStr body
    else .jsStr body
  parseStoryData parsed

/-- Embedding of `fetchChapterContent(id, retry)` from `src/unnamed/part_000`.
Acquire a session if the cookie string is empty; issue the storytext
request.  A thrown request retries while budget remains, else yields the
placeholder.  A body trimming to the sentinel `"Array"` with budget left
invalidates the session and recurses with the budget decremented; with
no budget left the sentinel body falls through to the normal parse.  A
parse exception is caught like a request exception. -/
def fetchChapterContent (o : NetOracle) : Nat → FetchSt → String × FetchSt
  | 0, st0 =>
    let st1 := if st0.cookies = "" then refreshSession o st0 else st0
    let st2 := { st1 with gets := st1.gets + 1 }
    match o.storytext st1.gets with
    | .error msg => ("[Content unavailable: " ++ msg ++ "]", st2)
    | .ok body =>
      match runStorytextParse o body with
      | .ok s => (s, st2)
      | .error msg => ("[Content unavailable: " ++ msg ++ "]", st2)
  | r + 1, st0 =>
    let st1 := if st0.cookies = "" then refreshSession o st0 else st0
    let st2 := { st1 with gets := st1.gets + 1 }
    match o.storytext st1.gets with
    | .error _ => fetchChapterContent o r st2
    | .ok body =>
      if jsTrimString body = "Array" then
        fetchChapterContent o r
          { st2 with cookies := "", invalidations := st2.invalidations + 1 }
      else
        match runStorytextParse o body with
        | .ok s => (s, st2)
        | .error _ => fetchChapterContent o r st2

/-- A chapter descriptor as sent by the client to
`POST /api/generate-pdf` of `src/unnamed/part_000`: `{id, title}`. -/
structure Chapter where
  id : Nat
  title : String
  deriving Repr, DecidableEq

/-- The batch loop of `POST /api/generate-pdf` in
`src/unnamed/part_000`: slices of `BATCH_SIZE` consecutive chapters are
fetched with `Promise.all` (which keeps the positional order of the
mapped array) and appended to `allTexts`.  `bsPred + 1` is the batch
size; the route uses `BATCH_SIZE = 12`.  `f` is the per-chapter result
of `fetchChapterContent` (a total function: every failure becomes
placeholder text). -/
def fetchAllBatched (f : Chapter → String) (bsPred : Nat) :
    List Chapter → List String
  | [] => []
  | c :: rest =>
    (List.take (bsPred + 1) (c :: rest)).map f
      ++ fetchAllBatched f bsPred (List.drop bsPred rest)
termination_by l => l.length
decreasing_by
  simp only [List.length_drop, List.length_cons]
  omega

/-- Here `env ch` packages the network responses and shared-session state
that chapter `ch`'s fetch observes (fixed by the interleaving of the
concurrent batch); the loop collects the per-chapter results in input
order with batch size 12. -/
def generatePdfFetchAll (env : Chapter → NetOracle × FetchSt)
    (chapters : List Chapter) : List String :=
  fetchAllBatched (fun ch => (fetchChapterContent (env ch).1 1 (env ch).2).1)
    11 chapters

/-- An oracle in which the denial sentinel persists on every request and
every handshake succeeds. -/
def persistSentinelOracle : NetOracle where
  handshake := fun _ => some "wp_id=guest"
  storytext := fun _ => .ok "Array"
  jsonDecode := fun _ => none

/-- An oracle in which every network request throws. -/
def allFailOracle : NetOracle where
  handshake := fun _ => none
  storytext := fun _ => .error "timeout of 6000ms exceeded"
  jsonDecode := fun _ => none

/-- The effect state at the start of a request: no cookies, no requests
issued yet. -/
def initialFetchSt : FetchSt := ⟨"", 0, 0, 0⟩

/-! ### Document assembly

Two assemblers exist.  `POST /api/generate-pdf` of `src/server.js`
(local variant, lines 251–305) writes, in program order: the title page,
a "Table of Contents" page with one text line per chapter, one chapter
page per input chapter (`CHAPTER n`, title, `safeText(ch.text)` body),
and an end page — into a `PDFDocument` that was piped into the response
(`doc.pipe(res)`) before any section was written.  `POST
/api/generate-pdf` of `src/unnamed/part_000` (lines 136–170) writes the
title page and the chapter pages only (no table of contents, no end
page), collects every emitted chunk into an array, concatenates them
with `Buffer.concat` when the document ends, and only then sends the
buffer with an explicit `Content-Length`. -/

/-- A section of the assembled document. -/
inductive PdfSection where
  | titleSec (storyTitle author : String)
  | tocSec (lines : List String)
  | chapterSec (ordinal : Nat) (title body : String)
  | closingSec (storyTitle author : String)
  deriving Repr, DecidableEq

/-- A chapter record in the `POST /api/generate-pdf` request body of
`src/server.js` (local variant): `{title, text}`, either possibly
missing. -/
structure ReqChapter where
  title : Option String
  text : Option String
  deriving Repr, DecidableEq

/-- Embedding of `safeText(str)` from `src/server.js`: non-strings and falsy values
give the placeholder, otherwise the trimmed string unless it is empty. -/
def safeText : Option String → String
  | none => "[No content available]"
  | some s =>
    if s = "" then "[No content available]"
    else if jsTrimString s = "" then "[No content available]"
    else jsTrimString s

/-- The rendered chapter title
``String(ch.title || `Chapter ${i+1}`).trim()`` (`i` 0-based). -/
def reqChapterTitle (i : Nat) (ch : ReqChapter) : String :=
  jsTrimString
    (match ch.title with
     | some t => if t = "" then "Chapter " ++ toString (i + 1) else t
     | none => "Chapter " ++ toString (i + 1))

/-- The table-of-contents lines written by the local assembler:
```${i + 1}.  ${String(ch.title || `Chapter ${i + 1}`).trim()}``` for
each chapter. -/
def tocLines (chapters : List ReqChapter) : List String :=
  chapters.enum.map (fun p => toString (p.1 + 1) ++ ".  " ++ reqChapterTitle p.1 p.2)

/-- The sections written, in program order, by the local assembler
(`src/server.js` lines 251–305): title page, table of contents, one
chapter page per chapter (ordinal `i + 1`, rendered title,
`safeText(ch.text)` body), end page. -/
def serverAssemble (storyTitle author : String)
    (chapters : List ReqChapter) : List PdfSection :=
  .titleSec storyTitle author
    :: .tocSec (tocLines chapters)
    :: chapters.enum.map
        (fun p => .chapterSec (p.1 + 1) (reqChapterTitle p.1 p.2) (safeText p.2.text))
    ++ [.closingSec storyTitle author]

/-- The body text `allTexts[i] || '[No content]'` of a Lightning chapter
page (`undefined` past the end of `allTexts` is falsy, as is `''`). -/
def lightningBody (texts : List String) (i : Nat) : String :=
  match texts.get? i with
  | some s => if s = "" then "[No content]" else s
  | none => "[No content]"

/-- The sections written, in program order, by the Lightning assembler
(`src/unnamed/part_000` lines 145–163): the title page, then one chapter
page per chapter — and nothing else. -/
def lightningAssemble (storyTitle author : String) (texts : List String)
    (chapters : List Chapter) : List PdfSection :=
  .titleSec storyTitle author
    :: chapters.enum.map
        (fun p => .chapterSec (p.1 + 1) p.2.title (lightningBody texts p.1))

/-- Claim-side structure check: a title section, then a table of
contents with exactly `n` lines, then chapter sections with dense
ordinals `1..n`, then a closing section — in that order and nothing
else. -/
def chaptersThenClosing : List PdfSection → Nat → Nat → Bool
  | [.closingSec _ _], k, n => k = n + 1
  | .chapterSec j _ _ :: rest, k, n => j = k && chaptersThenClosing rest (k + 1) n
  | _, _, _ => false

/-- Claim-side structure check, entry point (see
`chaptersThenClosing`). -/
def fullDocStructure (secs : List PdfSection) (n : Nat) : Bool :=
  match secs with
  | .titleSec _ _ :: .tocSec lines :: rest =>
    lines.length = n && chaptersThenClosing rest 1 n
  | _ => false

/-- Does the section list contain a table-of-contents section? -/
def hasToc (secs : List PdfSection) : Bool :=
  secs.any (fun s => match s with | .tocSec _ => true | _ => false)

/-- Does the section list contain a closing section? -/
def hasClosing (secs : List PdfSection) : Bool :=
  secs.any (fun s => match s with | .closingSec _ _ => true | _ => false)

/-- Number of chapter sections in the list. -/
def chapterSecCount (secs : List PdfSection) : Nat :=
  (secs.filter (fun s => match s with | .chapterSec _ _ _ => true | _ => false)).length

/-! ### Emission order (streaming vs. buffering) -/

/-- An event in the assembly/transmission timeline: attaching the
response as the document's output sink (`doc.pipe(res)` — from this
point emitted bytes flow to the client as they are produced), writing a
section into the document, or sending one fully buffered document
(`res.send(pdfBuffer)`). -/
inductive AsmEv where
  | attachSink
  | gen (s : PdfSection)
  | send
  deriving Repr, DecidableEq

/-- The event timeline of the local `POST /api/generate-pdf`
(`src/server.js`): `doc.pipe(res)` happens before any section is
written; every section then streams through the attached sink. -/
def serverPdfTrace (storyTitle author : String)
    (chapters : List ReqChapter) : List AsmEv :=
  .attachSink :: (serverAssemble storyTitle author chapters).map .gen

/-- The event timeline of the Lightning `POST /api/generate-pdf`
(`src/unnamed/part_000`): every section is generated into an in-memory
chunk list; only after `doc.end()` resolves is `Buffer.concat` sent as
one response. -/
def lightningPdfTrace (storyTitle author : String) (texts : List String)
    (chapters : List Chapter) : List AsmEv :=
  ((lightningAssemble storyTitle author texts chapters).map .gen) ++ [.send]

/-- Can bytes reach the client before generation has finished?  True iff
some transmission-capable event (`attachSink` or `send`) occurs strictly
before a later section-generation event. -/
def transmissionBeforeGenerationEnds : List AsmEv → Bool
  | [] => false
  | .gen _ :: rest => transmissionBeforeGenerationEnds rest
  | .attachSink :: rest => rest.any (fun e => match e with | .gen _ => true | _ => false)
  | .send :: rest => rest.any (fun e => match e with | .gen _ => true | _ => false)

/-! ### Session acquisition under concurrency (`src/server.js`)

`getWattpadSession` is: `if (_wattpadCookies) return _wattpadCookies;`
then `await axios.get('https://www.wattpad.com/', …)` and
`_wattpadCookies = setCookies.map(c => c.split(';')[0]).join('; ')`.
Under Node's cooperative scheduling a call is two atomic steps: the
check-and-issue step (read the shared cookie string; return it if
non-empty, otherwise issue the handshake request and suspend on the
await), and the resume step (store the handshake's cookie string).
There is no promise sharing: nothing stops a second caller that runs its
first step while the first caller's request is in flight. -/

/-- Where one `getWattpadSession()` call stands. -/
inductive SessPhase where
  | idle
  | inFlight
  | finished
  deriving Repr, DecidableEq

/-- Shared state: the module-level `_wattpadCookies`, the number of
handshake requests issued so far, and the phase of each call. -/
structure SessWorld where
  cookies : String
  handshakes : Nat
  tasks : List SessPhase
  deriving Repr, DecidableEq

/-- One scheduler step running call `i`: an idle call returns at once
when the cookie string is non-empty, otherwise issues a handshake and
suspends; an in-flight call resumes by storing the handshake result
`res`. -/
def sessStep (res : String) (w : SessWorld) (i : Nat) : SessWorld :=
  match w.tasks.get? i with
  | some .idle =>
    if w.cookies = "" then
      { w with tasks := w.tasks.set i .inFlight, handshakes := w.handshakes + 1 }
    else { w with tasks := w.tasks.set i .finished }
  | some .inFlight =>
    { w with tasks := w.tasks.set i .finished, cookies := res }
  | _ => w

/-- Run a cooperative schedule (a list of call indices). -/
def runSessSchedule (res : String) (w : SessWorld) (sched : List Nat) : SessWorld :=
  sched.foldl (sessStep res) w

/-- Two `getWattpadSession()` calls, credential absent. -/
def twoCallsAbsent : SessWorld := ⟨"", 0, [.idle, .idle]⟩

/-! ### Browser-side field probing (`src/public/app.js`) -/

/-- Model of `Object.values(item)` for the values that reach the browser parser's
object branch (`item && typeof item === 'object'`): field values of an
object, elements of an array. -/
def objValues : JSVal → List JSVal
  | .jsObj fields => fields.map (·.2)
  | .jsArr elems => elems
  | _ => []

/-- The longest-string scan of `parseStoryTextResponse`
(`src/public/app.js` lines 206–210): `for (const v of Object.values(item))
if (typeof v === 'string' && v.length > html.length) html = v;` — a
non-string accumulator (possible only when a priority field held a
non-string falsy value) never compares greater, so it is never
replaced. -/
def longestStringScan : List JSVal → JSVal → JSVal
  | [], cur => cur
  | v :: rest, cur =>
    longestStringScan rest
      (match v, cur with
       | .jsStr s, .jsStr a => if a.length < s.length then .jsStr s else cur
       | _, _ => cur)

/-- The markup fragment (`html`) chosen for one array element by
`parseStoryTextResponse` (`src/public/app.js` lines 198–211): strings
pass through; truthy objects probe
`item.text ?? item.content ?? item.body ?? item.paragraph ?? ''` and,
when the probe is falsy, fall back to the longest string-valued field;
anything else leaves `html = ''`. -/
def clientFragment (item : JSVal) : JSVal :=
  match item with
  | .jsStr s => .jsStr s
  | .jsObj fields =>
    let probe :=
      jsCoalesce (getFieldU (.jsObj fields) "text")
        (jsCoalesce (getFieldU (.jsObj fields) "content")
          (jsCoalesce (getFieldU (.jsObj fields) "body")
            (jsCoalesce (getFieldU (.jsObj fields) "paragraph") (.jsStr ""))))
    if probe.isTruthy then probe
    else longestStringScan (objValues (.jsObj fields)) probe
  | .jsArr elems =>
    let probe :=
      jsCoalesce (getFieldU (.jsArr elems) "text")
        (jsCoalesce (getFieldU (.jsArr elems) "content")
          (jsCoalesce (getFieldU (.jsArr elems) "body")
            (jsCoalesce (getFieldU (.jsArr elems) "paragraph") (.jsStr ""))))
    if probe.isTruthy then probe
    else longestStringScan (objValues (.jsArr elems)) probe
  | _ => .jsStr ""

/-- Are the four priority fields all absent from the field list? -/
def noPriorityFields (fields : List (String × JSVal)) : Bool :=
  (fields.lookup "text").isNone && (fields.lookup "content").isNone
    && (fields.lookup "body").isNone && (fields.lookup "paragraph").isNone

/-- The string-valued fields of a record, in order. -/
def stringValues (fields : List (String × JSVal)) : List String :=
  fields.filterMap (fun p => match p.2 with | .jsStr s => some s | _ => none)

/-! ### Filename sanitizer (`src/server.js`) -/

/-- The characters removed by `/[\\/:*?"<>|]/g`. -/
def isForbiddenFilenameChar (c : Char) : Bool :=
  c = '\\' || c = '/' || c = ':' || c = '*' || c = '?' || c = '"'
    || c = '<' || c = '>' || c = '|'

/-- Is the character printable ASCII (`\x20`–`\x7E`)? -/
def isPrintableAscii (c : Char) : Bool :=
  0x20 ≤ c.toNat && c.toNat ≤ 0x7E

/-- Embedding of `toAsciiFilename(str)` from `src/server.js`: drop every
non-printable-ASCII character, replace the filesystem-reserved
characters with `_`, trim, keep the first 100 characters, and fall back
to `'wattpad-story'` when nothing is left. -/
def toAsciiFilename (s : String) : String :=
  let step1 := s.data.filter isPrintableAscii
  let step2 := step1.map (fun c => if isForbiddenFilenameChar c then '_' else c)
  let step3 := (jsTrim step2).take 100
  if step3.isEmpty then "wattpad-story" else String.mk step3

/-- Is the normalizer result a value (no exception)? -/
def exceptOk : Except String String → Bool
  | .ok _ => true
  | .error _ => false

/-- The payload shapes on which the server normalizer cannot throw: any
non-array payload, and arrays none of whose elements are nullish. -/
def arrayElemsNonNullish : JSVal → Bool
  | .jsArr items => items.all (fun i => !i.isNullish)
  | _ => true

/-! ## Helper lemmas -/

/-- The batch loop visits every chapter once, in order: batching with
`Promise.all` over contiguous slices is the positional map of the
per-chapter fetch. -/
theorem fetchAllBatched_eq_map (f : Chapter → String) (bsPred : Nat)
    (l : List Chapter) : fetchAllBatched f bsPred l = l.map f := by
  have H : ∀ n (l : List Chapter), l.length ≤ n →
      fetchAllBatched f bsPred l = l.map f := by
    intro n
    induction n with
    | zero =>
      intro l hl
      have hnil : l = [] := List.eq_nil_of_length_eq_zero (Nat.le_zero.mp hl)
      subst hnil
      simp [fetchAllBatched]
    | succ n ih =>
      intro l hl
      match l with
      | [] => simp [fetchAllBatched]
      | c :: rest =>
        rw [fetchAllBatched, ih (List.drop bsPred rest)
          (by simp only [List.length_drop]; simp at hl; omega)]
        rw [← List.map_append, List.take_succ_cons, List.cons_append,
          List.take_append_drop]
  exact H l.length l le_rfl

/-- Parsing the raw body `"Array"` yields the text `"Array"` itself (no
JSON shape is attempted, and there are no tags to strip). -/
theorem runStorytextParse_Array (o : NetOracle) :
    runStorytextParse o "Array" = .ok "Array" := rfl

/-- When the sentinel persists, any retry budget `r` ends with the
normalized sentinel text and exactly `r` session invalidations, from any
starting state. -/
theorem fetchChapterContent_persistent_sentinel (r : Nat) :
    ∀ st : FetchSt,
      (fetchChapterContent persistSentinelOracle r st).1 = "Array"
      ∧ (fetchChapterContent persistSentinelOracle r st).2.invalidations
          = st.invalidations + r := by
  induction r with
  | zero =>
    intro st
    by_cases h : st.cookies = "" <;>
      simp [fetchChapterContent, refreshSession, persistSentinelOracle, h,
        runStorytextParse_Array]
  | succ r ih =>
    intro st
    by_cases h : st.cookies = "" <;>
      · simp only [fetchChapterContent, refreshSession, persistSentinelOracle, h,
          if_true, if_false, reduceIte]
        rw [if_pos (show jsTrimString "Array" = "Array" from rfl)]
        refine ⟨(ih _).1, ?_⟩
        exact ((ih _).2).trans
          (show st.invalidations + 1 + r = st.invalidations + (r + 1) by omega)

/-- No transmission happens before the end of generation when every
generation event precedes the single `send`. -/
theorem transmissionBeforeGenerationEnds_gen_send (secs : List PdfSection) :
    transmissionBeforeGenerationEnds (secs.map .gen ++ [.send]) = false := by
  induction secs with
  | nil => rfl
  | cons s rest ih => simpa [transmissionBeforeGenerationEnds] using ih

/-! ## Claims -/

/-- C1: the batch fetch over an input list of chapter descriptors (of
any size) returns one text per chapter, in input order — `result[i]` is
chapter `i`'s fetch result — and when every fetch fails each entry is
the placeholder text, never a missing element (the fetcher is a total
function, so no error is thrown). -/
theorem batch_fetch_preserves_length_and_order
    (env : Chapter → NetOracle × FetchSt) (chapters : List Chapter) :
    generatePdfFetchAll env chapters
      = chapters.map (fun ch => (fetchChapterContent (env ch).1 1 (env ch).2).1)
    ∧ (generatePdfFetchAll env chapters).length = chapters.length
    ∧ generatePdfFetchAll (fun _ => (allFailOracle, initialFetchSt)) chapters
      = chapters.map (fun _ => "[Content unavailable: timeout of 6000ms exceeded]") := by
  refine ⟨fetchAllBatched_eq_map _ _ _, ?_, ?_⟩
  · rw [generatePdfFetchAll, fetchAllBatched_eq_map, List.length_map]
  · rw [generatePdfFetchAll, fetchAllBatched_eq_map]
    rfl

/-- C2 counterexample: with the `"Array"` sentinel persisting on every
request and a retry budget of 2, `fetchChapterContent` performs exactly
2 invalidate-and-re-acquire cycles but then returns the sentinel text
`"Array"` itself — not the `[Content unavailable: …]` placeholder the
claim promises. -/
theorem fetch_sentinel_budget2_returns_sentinel_text :
    (fetchChapterContent persistSentinelOracle 2 initialFetchSt).1 = "Array"
    ∧ (fetchChapterContent persistSentinelOracle 2 initialFetchSt).2.invalidations = 2
    ∧ (fetchChapterContent persistSentinelOracle 2 initialFetchSt).2.handshakes = 3 :=
  ⟨rfl, rfl, rfl⟩

/-- C2 (amended): if the raw body always trims to the denial sentinel
`"Array"`, a retry budget of `r` (in particular 2) performs exactly `r`
invalidate-and-re-acquire cycles and then returns the *normalized
sentinel body* — the text `"Array"` — rather than a thrown error; the
"content unavailable" placeholder is produced only by request or parse
exceptions, not by sentinel exhaustion. -/
theorem fetch_sentinel_exhaustion_normalizes_sentinel (r : Nat) (st : FetchSt) :
    (fetchChapterContent persistSentinelOracle r st).1 = "Array"
    ∧ (fetchChapterContent persistSentinelOracle r st).2.invalidations
        = st.invalidations + r :=
  fetchChapterContent_persistent_sentinel r st

/-- C3 counterexample: for a concrete 2-chapter bundle, the Lightning
assembler's timeline has no transmission-capable event before the end of
generation: the whole document is buffered (`Buffer.concat`) and sent
only afterwards, contradicting "the whole document is never buffered in
memory before the response begins". -/
theorem lightning_pdf_fully_buffered_example :
    transmissionBeforeGenerationEnds
      (lightningPdfTrace "T" "A" ["x", "y"] [⟨1, "c1"⟩, ⟨2, "c2"⟩]) = false := by
  decide

/-- C3 (amended): the local assembler (`src/server.js`) streams — it
attaches the response sink (`doc.pipe(res)`) before generating any
section, so sections are transmitted as they are generated; the
Lightning assembler (`src/unnamed/part_000`) instead generates every
section into an in-memory buffer and its single transmission event is
the last event of the timeline, after all generation. -/
theorem assembler_streaming_vs_buffered (t a : String) (texts : List String)
    (chsR : List ReqChapter) (chsL : List Chapter) :
    transmissionBeforeGenerationEnds (serverPdfTrace t a chsR) = true
    ∧ transmissionBeforeGenerationEnds (lightningPdfTrace t a texts chsL) = false
    ∧ (lightningPdfTrace t a texts chsL).getLast? = some .send := by
  refine ⟨?_, transmissionBeforeGenerationEnds_gen_send _, ?_⟩
  · simp [serverPdfTrace, serverAssemble, transmissionBeforeGenerationEnds]
  · simp [lightningPdfTrace]

/-- C6 counterexample: the chapter payload
`[{"text":"<p>Hello</p><br>World"}]` normalizes to `"Hello\n\n\nWorld"`
(`<p>` becomes the trimmed text plus a blank line, `<br>` a newline, and
the run of three newlines survives the `\n{4,}` collapse), not to the
claimed `"Hello\nWorld"`. -/
theorem normalize_hello_world_payload_counterexample :
    parseStorytextData (.jsArr [.jsObj [("text", .jsStr "<p>Hello</p><br>World")]])
      = .ok "Hello\n\n\nWorld"
    ∧ "Hello\n\n\nWorld" ≠ "Hello\nWorld" :=
  ⟨rfl, by decide⟩

/-- C6 (amended): normalizing the chapter payload
`[{"text":"<p>Hello</p><br>World"}]` yields exactly the body
`"Hello\n\n\nWorld"`. -/
theorem normalize_hello_world_payload :
    parseStorytextData (.jsArr [.jsObj [("text", .jsStr "<p>Hello</p><br>World")]])
      = .ok "Hello\n\n\nWorld" := rfl

/-- For a list without nullish elements, mapping the server's per-item
field probe throws nothing. -/
theorem mapM_serverItemFrag_ok (items : List JSVal)
    (h : items.all (fun i => !i.isNullish) = true) :
    ∃ l, items.mapM serverItemFrag = Except.ok l := by
  induction items with
  | nil => exact ⟨[], rfl⟩
  | cons i rest ih =>
    rw [List.all_cons, Bool.and_eq_true] at h
    obtain ⟨l, hl⟩ := ih h.2
    have hi : ∃ s, serverItemFrag i = Except.ok s := by
      cases i with
      | jsNull => simp [JSVal.isNullish] at h
      | jsUndefined => simp [JSVal.isNullish] at h
      | jsStr s => exact ⟨_, rfl⟩
      | jsNum n => exact ⟨_, rfl⟩
      | jsBool b => exact ⟨_, rfl⟩
      | jsArr es => exact ⟨_, rfl⟩
      | jsObj fs => exact ⟨_, rfl⟩
    obtain ⟨s, hs⟩ := hi
    refine ⟨s :: l, ?_⟩
    rw [List.mapM_cons, hs, hl]
    rfl

/-- C7 counterexample: an array payload containing `null` makes the
normalizer throw (`item.text` on `null` is a `TypeError`), contradicting
"for every input payload, including … an array containing null …, the
normalizer never throws". -/
theorem normalizer_throws_on_null_element :
    exceptOk (parseStorytextData (.jsArr [.jsNull])) = false := rfl

/-- C7 (amended): the normalizer never throws on any non-array payload
and on any array payload whose elements are all non-nullish (strings,
numbers, booleans, arrays, objects — including objects with non-string
field values); only a nullish array element throws.  In the worst case
it returns the empty string. -/
theorem normalizer_total_on_nonnullish (v : JSVal)
    (h : arrayElemsNonNullish v = true) :
    exceptOk (parseStorytextData v) = true := by
  cases v with
  | jsArr items =>
    obtain ⟨l, hl⟩ :=
      mapM_serverItemFrag_ok items (by simpa [arrayElemsNonNullish] using h)
    simp only [List.mapM] at hl
    simp [parseStorytextData, hl, exceptOk, bind, Except.bind, pure, Except.pure]
  | jsObj fields => rfl
  | jsStr s => rfl
  | jsNull => rfl
  | jsUndefined => rfl
  | jsNum n => rfl
  | jsBool b => rfl

/-- C7 witness: a malformed array payload (number element, object
element whose `text` field is a number) is handled without an exception. -/
theorem normalizer_total_on_nonnullish_witness :
    arrayElemsNonNullish (.jsArr [.jsNum 42, .jsObj [("text", .jsNum 7)]]) = true
    ∧ exceptOk (parseStorytextData (.jsArr [.jsNum 42, .jsObj [("text", .jsNum 7)]])) = true :=
  ⟨rfl, normalizer_total_on_nonnullish _ rfl⟩

/-- C8 counterexample: two `getWattpadSession()` calls that both run
their check while the credential is absent each issue a handshake — the
interleaved schedule performs 2 handshake requests, not the claimed
exactly 1. -/
theorem concurrent_session_acquire_two_handshakes :
    (runSessSchedule "wp_id=guest" twoCallsAbsent [0, 1, 0, 1]).handshakes = 2
    ∧ (runSessSchedule "wp_id=guest" twoCallsAbsent [0, 1, 0, 1]).handshakes ≠ 1 :=
  ⟨rfl, by decide⟩

/-- C8 (amended): `getWattpadSession` does not share an in-flight
handshake.  Two calls that both start while the credential is absent
each issue their own handshake (2 requests under the interleaved
schedule); only a call that starts after another call has completed
reuses the stored credential and issues none (1 request under the
sequential schedule). -/
theorem session_acquire_no_coalescing (sid : String) (h : sid ≠ "") :
    (runSessSchedule sid twoCallsAbsent [0, 1, 0, 1]).handshakes = 2
    ∧ (runSessSchedule sid twoCallsAbsent [0, 0, 1]).handshakes = 1 := by
  constructor
  · rfl
  · simp [runSessSchedule, sessStep, twoCallsAbsent, List.foldl, h]

/-- C8 witness: instantiating the schedules with a concrete non-empty
cookie string. -/
theorem session_acquire_no_coalescing_witness :
    ("sid=abc" : String) ≠ ""
    ∧ (runSessSchedule "sid=abc" twoCallsAbsent [0, 1, 0, 1]).handshakes = 2
    ∧ (runSessSchedule "sid=abc" twoCallsAbsent [0, 0, 1]).handshakes = 1 :=
  ⟨by decide, (session_acquire_no_coalescing "sid=abc" (by decide)).1,
    (session_acquire_no_coalescing "sid=abc" (by decide)).2⟩

/-- Dropping a non-string head does not change the scan. -/
theorem longestStringScan_cons_nonstr (v : JSVal) (rest : List JSVal)
    (cur : JSVal) (h : ∀ s, ¬ v = .jsStr s) :
    longestStringScan (v :: rest) cur = longestStringScan rest cur := by
  cases v with
  | jsStr s => exact absurd rfl (h s)
  | jsNull => rfl
  | jsUndefined => rfl
  | jsNum n => rfl
  | jsBool b => rfl
  | jsArr es => rfl
  | jsObj fs => rfl

/-- The for-loop of the browser fallback returns a string that is either
the seed or one of the scanned string values, and whose length dominates
the seed and every scanned string value. -/
theorem longestStringScan_spec (vals : List JSVal) :
    ∀ a : String, ∃ r, longestStringScan vals (.jsStr a) = .jsStr r
      ∧ (r = a ∨ .jsStr r ∈ vals)
      ∧ a.length ≤ r.length
      ∧ ∀ t : String, .jsStr t ∈ vals → t.length ≤ r.length := by
  induction vals with
  | nil =>
    intro a
    exact ⟨a, rfl, .inl rfl, le_rfl, by simp⟩
  | cons v rest ih =>
    intro a
    by_cases hv : ∃ s, v = .jsStr s
    · obtain ⟨s, rfl⟩ := hv
      by_cases hlen : a.length < s.length
      · obtain ⟨r, h1, h2, h3, h4⟩ := ih s
        refine ⟨r, ?_, ?_, ?_, ?_⟩
        · simpa [longestStringScan, hlen] using h1
        · rcases h2 with h2 | h2
          · exact .inr (by rw [h2]; exact List.mem_cons_self _ _)
          · exact .inr (List.mem_cons_of_mem _ h2)
        · exact le_trans (le_of_lt hlen) h3
        · intro t ht
          rcases List.mem_cons.mp ht with ht | ht
          · injection ht with ht'
            subst ht'
            exact h3
          · exact h4 t ht
      · obtain ⟨r, h1, h2, h3, h4⟩ := ih a
        refine ⟨r, ?_, ?_, h3, ?_⟩
        · simpa [longestStringScan, hlen] using h1
        · rcases h2 with h2 | h2
          · exact .inl h2
          · exact .inr (List.mem_cons_of_mem _ h2)
        · intro t ht
          rcases List.mem_cons.mp ht with ht | ht
          · injection ht with ht'
            subst ht'
            exact le_trans (Nat.le_of_not_lt hlen) h3
          · exact h4 t ht
    · have hne : ∀ s, ¬ v = .jsStr s := by
        intro s hs
        exact hv ⟨s, hs⟩
      rw [longestStringScan_cons_nonstr v rest _ hne]
      obtain ⟨r, h1, h2, h3, h4⟩ := ih a
      refine ⟨r, h1, ?_, h3, ?_⟩
      · rcases h2 with h2 | h2
        · exact .inl h2
        · exact .inr (List.mem_cons_of_mem _ h2)
      · intro t ht
        rcases List.mem_cons.mp ht with ht | ht
        · exact absurd ht.symm (hne t)
        · exact h4 t ht

/-- The string-projection used by `stringValues` hits exactly the
string-valued fields. -/
theorem strField_some_iff (p : String × JSVal) (t : String) :
    (match p.2 with | .jsStr s => some s | _ => none) = some t
      ↔ p.2 = .jsStr t := by
  cases p.2 <;> simp

/-- Membership in the field values as a string equals membership in
`stringValues`. -/
theorem mem_map_snd_iff_stringValues (t : String)
    (fields : List (String × JSVal)) :
    .jsStr t ∈ fields.map (·.2) ↔ t ∈ stringValues fields := by
  simp only [stringValues, List.mem_filterMap, List.mem_map]
  constructor
  · rintro ⟨p, hp, hp2⟩
    exact ⟨p, hp, (strField_some_iff p t).mpr hp2⟩
  · rintro ⟨p, hp, hp2⟩
    exact ⟨p, hp, (strField_some_iff p t).mp hp2⟩

/-- C9 counterexample: the server-side normalizer has no
longest-string-field fallback — a record whose priority fields are all
absent but which has the string field `"foo": "xyzw"` yields the empty
output, not the field's markup. -/
theorem server_normalizer_no_longest_field_fallback :
    parseStorytextData (.jsArr [.jsObj [("foo", .jsStr "xyzw")]]) = .ok ""
    ∧ "xyzw" ≠ "" := ⟨rfl, by decide⟩

/-- C9 (amended): only the browser-side parser
(`parseStoryTextResponse` in `src/public/app.js`) implements the
fallback: for a record whose priority fields (`text`, `content`,
`body`, `paragraph`) are all absent, its chosen markup fragment is a
longest string-valued field of the record (or `''` when there is none);
the server-side `parseStorytextData` probes only the priority fields and
produces an empty fragment for such records. -/
theorem client_fallback_extracts_longest_string_field
    (fields : List (String × JSVal)) (h : noPriorityFields fields = true) :
    ∃ r, clientFragment (.jsObj fields) = .jsStr r
      ∧ (r = "" ∨ r ∈ stringValues fields)
      ∧ ∀ t ∈ stringValues fields, t.length ≤ r.length := by
  simp only [noPriorityFields, Bool.and_eq_true, Option.isNone_iff_eq_none] at h
  obtain ⟨⟨⟨h1, h2⟩, h3⟩, h4⟩ := h
  have hfrag : clientFragment (.jsObj fields)
      = longestStringScan (fields.map (·.2)) (.jsStr "") := by
    simp [clientFragment, getFieldU, h1, h2, h3, h4, jsCoalesce, JSVal.isNullish,
      JSVal.isTruthy, objValues]
  obtain ⟨r, hr1, hr2, _, hr4⟩ := longestStringScan_spec (fields.map (·.2)) ""
  refine ⟨r, hfrag.trans hr1, ?_, ?_⟩
  · rcases hr2 with hr2 | hr2
    · exact .inl hr2
    · exact .inr ((mem_map_snd_iff_stringValues r fields).mp hr2)
  · intro t ht
    exact hr4 t ((mem_map_snd_iff_stringValues t fields).mpr ht)

/-- C9 witness: a record with priority fields absent and string fields
`"ab"` and `"xyzw"` — the fallback picks a longest string field. -/
theorem client_fallback_witness :
    noPriorityFields
      [("id", JSVal.jsStr "ab"), ("foo", JSVal.jsStr "xyzw"), ("n", JSVal.jsNum 3)] = true
    ∧ ∃ r, clientFragment (.jsObj
        [("id", JSVal.jsStr "ab"), ("foo", JSVal.jsStr "xyzw"), ("n", JSVal.jsNum 3)]) = .jsStr r
      ∧ (r = "" ∨ r ∈ stringValues
          [("id", JSVal.jsStr "ab"), ("foo", JSVal.jsStr "xyzw"), ("n", JSVal.jsNum 3)])
      ∧ ∀ t ∈ stringValues
          [("id", JSVal.jsStr "ab"), ("foo", JSVal.jsStr "xyzw"), ("n", JSVal.jsNum 3)],
          t.length ≤ r.length :=
  ⟨rfl, client_fallback_extracts_longest_string_field _ rfl⟩

/-- The chapter pages written by the local assembler carry dense
ordinals `k+1, …, k+n` and are followed directly by the end page. -/
theorem chaptersThenClosing_enumFrom (t a : String) (l : List ReqChapter) :
    ∀ k, chaptersThenClosing
      ((List.enumFrom k l).map
        (fun p => PdfSection.chapterSec (p.1 + 1) (reqChapterTitle p.1 p.2)
          (safeText p.2.text))
        ++ [PdfSection.closingSec t a]) (k + 1) (k + l.length) = true := by
  induction l with
  | nil => intro k; simp [chaptersThenClosing]
  | cons c rest ih =>
    intro k
    simp only [List.enumFrom, List.map_cons, List.cons_append, chaptersThenClosing,
      Bool.and_eq_true, decide_eq_true_eq, List.length_cons]
    refine ⟨by trivial, ?_⟩
    have harith : k + (rest.length + 1) = (k + 1) + rest.length := by omega
    rw [harith]
    exact ih (k + 1)

/-- Every mapped element is a chapter section, so the chapter-section
filter keeps the whole mapped list. -/
theorem filter_chapterSec_map {α : Type} (f : Nat × α → PdfSection)
    (hf : ∀ p, (match f p with
      | PdfSection.chapterSec _ _ _ => true
      | _ => false) = true)
    (l : List (Nat × α)) :
    (l.map f).filter
        (fun s => match s with
          | PdfSection.chapterSec _ _ _ => true
          | _ => false)
      = l.map f := by
  induction l with
  | nil => rfl
  | cons p rest ih => simp [List.filter_cons, hf, ih]

/-- C4 counterexample: assembling the spec's 3-chapter bundle (one
chapter holding placeholder content) with the Lightning assembler
produces a document with no table of contents and no closing section —
only the title section and the 3 chapter sections — contradicting the
claimed fixed title → TOC → chapters → closing order. -/
theorem lightning_three_chapter_bundle_missing_sections :
    hasToc (lightningAssemble "T" "A"
      ["x", "[Content unavailable: timeout]", "z"]
      [⟨1, "c1"⟩, ⟨2, "c2"⟩, ⟨3, "c3"⟩]) = false
    ∧ hasClosing (lightningAssemble "T" "A"
      ["x", "[Content unavailable: timeout]", "z"]
      [⟨1, "c1"⟩, ⟨2, "c2"⟩, ⟨3, "c3"⟩]) = false
    ∧ chapterSecCount (lightningAssemble "T" "A"
      ["x", "[Content unavailable: timeout]", "z"]
      [⟨1, "c1"⟩, ⟨2, "c2"⟩, ⟨3, "c3"⟩]) = 3 := by
  decide

/-- C4 (amended): the fixed order — title section, table of contents
with one line per chapter, exactly one chapter section per input chapter
(placeholder bodies included, with dense ordinals `1..n`), closing
section — holds for the local assembler (`src/server.js`); the Lightning
assembler (`src/unnamed/part_000`) emits only the title section followed
by the chapter sections, with no table of contents and no closing
section. -/
theorem document_structure_by_assembler (t a : String) (chs : List ReqChapter)
    (texts : List String) (chsL : List Chapter) (_hne : chs ≠ []) :
    fullDocStructure (serverAssemble t a chs) chs.length = true
    ∧ chapterSecCount (serverAssemble t a chs) = chs.length
    ∧ hasToc (lightningAssemble t a texts chsL) = false
    ∧ hasClosing (lightningAssemble t a texts chsL) = false
    ∧ chapterSecCount (lightningAssemble t a texts chsL) = chsL.length := by
  refine ⟨?_, ?_, ?_, ?_, ?_⟩
  · have hlen : (tocLines chs).length = chs.length := by simp [tocLines]
    have hctc := chaptersThenClosing_enumFrom t a chs 0
    simp only [Nat.zero_add] at hctc
    simp [serverAssemble, fullDocStructure, List.enum, hlen, hctc]
  · simp only [serverAssemble, chapterSecCount, List.filter_cons, List.filter_append]
    rw [filter_chapterSec_map _ (fun p => rfl)]
    simp [List.filter_cons, List.enum]
  · simp [hasToc, lightningAssemble, List.any_cons, List.any_map, Function.comp]
    intro x i c _ hx
    subst hx
    rfl
  · simp [hasClosing, lightningAssemble, List.any_cons, List.any_map, Function.comp]
    intro x i c _ hx
    subst hx
    rfl
  · simp only [lightningAssemble, chapterSecCount, List.filter_cons]
    rw [filter_chapterSec_map _ (fun p => rfl)]
    simp [List.enum]

/-- C4 witness: the amended structure at the spec scenario's 3-chapter
bundle. -/
theorem document_structure_witness :
    ([⟨some "c1", some "x"⟩, ⟨some "c2", some "[No content available]"⟩,
        ⟨some "c3", some "z"⟩] : List ReqChapter) ≠ []
    ∧ fullDocStructure
        (serverAssemble "T" "A"
          [⟨some "c1", some "x"⟩, ⟨some "c2", some "[No content available]"⟩,
            ⟨some "c3", some "z"⟩])
        ([⟨some "c1", some "x"⟩, ⟨some "c2", some "[No content available]"⟩,
            ⟨some "c3", some "z"⟩] : List ReqChapter).length = true :=
  ⟨by decide,
    (document_structure_by_assembler "T" "A" _ [] [] (by decide)).1⟩

/-! ## Whitespace discipline of the post-processing -/

/-- Every maximal run of newlines in the list, continuing a run of
`run` pending newlines, has length at most `bound`. -/
def nlRunsLe (bound : Nat) : Nat → List Char → Bool
  | _, [] => true
  | run, c :: rest =>
    if c = '\n' then decide (run + 1 ≤ bound) && nlRunsLe bound (run + 1) rest
    else nlRunsLe bound 0 rest

/-- No two adjacent horizontal-whitespace characters; `b` records
whether the previous character was horizontal whitespace. -/
def noAdjacentHoriz : Bool → List Char → Bool
  | _, [] => true
  | b, c :: rest =>
    if isHorizWs c then !b && noAdjacentHoriz true rest
    else noAdjacentHoriz false rest

/-- Neither the first nor the last character is whitespace. -/
def noEdgeWs (l : List Char) : Bool :=
  (match l.head? with
   | some c => !isJsWs c
   | none => true)
  && (match l.getLast? with
      | some c => !isJsWs c
      | none => true)

theorem nlRunsLe_mono (k : Nat) (l : List Char) :
    ∀ r r' : Nat, r' ≤ r → nlRunsLe k r l = true → nlRunsLe k r' l = true := by
  induction l with
  | nil => intro r r' _ _; rfl
  | cons c rest ih =>
    intro r r' hle h
    by_cases hc : c = '\n'
    · simp only [nlRunsLe, if_pos hc, Bool.and_eq_true, decide_eq_true_eq] at h ⊢
      exact ⟨by omega, ih (r + 1) (r' + 1) (by omega) h.2⟩
    · simpa only [nlRunsLe, if_neg hc] using h

theorem nlRunsLe_append_left (k : Nat) (a b : List Char) :
    ∀ r, nlRunsLe k r (a ++ b) = true → nlRunsLe k r a = true := by
  induction a with
  | nil => intro r _; rfl
  | cons c rest ih =>
    intro r h
    by_cases hc : c = '\n'
    · simp only [List.cons_append, nlRunsLe, if_pos hc, Bool.and_eq_true] at h ⊢
      exact ⟨h.1, ih _ h.2⟩
    · simp only [List.cons_append, nlRunsLe, if_neg hc] at h ⊢
      exact ih _ h

theorem nlRunsLe_append_right (k : Nat) (a b : List Char) :
    nlRunsLe k 0 (a ++ b) = true → nlRunsLe k 0 b = true := by
  induction a with
  | nil => exact fun h => h
  | cons c rest ih =>
    intro h
    by_cases hc : c = '\n'
    · simp only [List.cons_append, nlRunsLe, if_pos hc, Bool.and_eq_true] at h
      exact ih (nlRunsLe_mono k (rest ++ b) 1 0 (by omega) h.2)
    · simp only [List.cons_append, nlRunsLe, if_neg hc] at h
      exact ih h

theorem nlRunsLe_replicate (m : Nat) (hm : m ≤ 3) :
    nlRunsLe 3 0 (List.replicate m '\n') = true := by
  interval_cases m <;> decide

theorem nlRunsLe_replicate_prepend (m : Nat) (hm : m ≤ 3) {c : Char}
    (hc : ¬ c = '\n') {t : List Char} (ht : nlRunsLe 3 0 t = true) :
    nlRunsLe 3 0 (List.replicate m '\n' ++ c :: t) = true := by
  interval_cases m <;> simp [nlRunsLe, hc, ht]

/-- The `\n{4,} → \n\n\n` replacement leaves no newline run longer
than 3. -/
theorem nlRunsLe_collapseNlAux (l : List Char) :
    ∀ n, nlRunsLe 3 0 (collapseNlAux n l) = true := by
  induction l with
  | nil =>
    intro n
    exact nlRunsLe_replicate _ (by omega)
  | cons c rest ih =>
    intro n
    by_cases hc : c = '\n'
    · simpa [collapseNlAux, hc] using ih (n + 1)
    · simp only [collapseNlAux, if_neg hc]
      exact nlRunsLe_replicate_prepend _ (by omega) hc (ih 0)

theorem dropWhile_suffix_decomp (p : Char → Bool) (l : List Char) :
    ∃ a, l = a ++ l.dropWhile p := by
  induction l with
  | nil => exact ⟨[], rfl⟩
  | cons c rest ih =>
    by_cases hc : p c
    · obtain ⟨a, ha⟩ := ih
      refine ⟨c :: a, ?_⟩
      simp only [List.dropWhile, hc, List.cons_append]
      exact congrArg (c :: ·) ha
    · refine ⟨[], ?_⟩
      simp [List.dropWhile, hc]

/-- Trimming only removes characters at the two ends. -/
theorem jsTrim_decomp (l : List Char) : ∃ a b, l = a ++ jsTrim l ++ b := by
  obtain ⟨a, ha⟩ := dropWhile_suffix_decomp isJsWs l
  obtain ⟨a2, ha2⟩ := dropWhile_suffix_decomp isJsWs (l.dropWhile isJsWs).reverse
  refine ⟨a, a2.reverse, ?_⟩
  have hd : l.dropWhile isJsWs = jsTrim l ++ a2.reverse := by
    have h := congrArg List.reverse ha2
    simpa [jsTrim, List.reverse_append] using h
  conv_lhs => rw [ha, hd]
  exact (List.append_assoc _ _ _).symm

theorem mem_of_mem_jsTrim {c : Char} {l : List Char} (h : c ∈ jsTrim l) :
    c ∈ l := by
  obtain ⟨a, b, hab⟩ := jsTrim_decomp l
  rw [hab]
  simp only [List.mem_append]
  exact .inl (.inr h)

theorem nlRunsLe_jsTrim (l : List Char) (h : nlRunsLe 3 0 l = true) :
    nlRunsLe 3 0 (jsTrim l) = true := by
  obtain ⟨a, b, hab⟩ := jsTrim_decomp l
  rw [hab, List.append_assoc] at h
  exact nlRunsLe_append_left 3 _ b 0 (nlRunsLe_append_right 3 a _ h)

theorem noAdjacentHoriz_of_true (l : List Char)
    (h : noAdjacentHoriz true l = true) : noAdjacentHoriz false l = true := by
  cases l with
  | nil => rfl
  | cons c rest =>
    by_cases hc : isHorizWs c
    · simp [noAdjacentHoriz, hc] at h
    · simpa only [noAdjacentHoriz, if_neg hc] using h

theorem noAdjacentHoriz_append_left (a b : List Char) :
    ∀ r, noAdjacentHoriz r (a ++ b) = true → noAdjacentHoriz r a = true := by
  induction a with
  | nil => intro r _; rfl
  | cons c rest ih =>
    intro r h
    by_cases hc : isHorizWs c
    · simp only [List.cons_append, noAdjacentHoriz, if_pos hc, Bool.and_eq_true] at h ⊢
      exact ⟨h.1, ih _ h.2⟩
    · simp only [List.cons_append, noAdjacentHoriz, if_neg hc] at h ⊢
      exact ih _ h

theorem noAdjacentHoriz_append_right (a b : List Char) :
    noAdjacentHoriz false (a ++ b) = true → noAdjacentHoriz false b = true := by
  induction a with
  | nil => exact fun h => h
  | cons c rest ih =>
    intro h
    by_cases hc : isHorizWs c
    · simp only [List.cons_append, noAdjacentHoriz, if_pos hc, Bool.and_eq_true] at h
      exact ih (noAdjacentHoriz_of_true _ h.2)
    · simp only [List.cons_append, noAdjacentHoriz, if_neg hc] at h
      exact ih h

/-- The `[ \t]+ → ' '` replacement leaves no two adjacent horizontal
whitespace characters. -/
theorem noAdjacentHoriz_collapseHorizAux (l : List Char) :
    ∀ flag, noAdjacentHoriz false (collapseHorizAux flag l) = true := by
  induction l with
  | nil =>
    intro flag
    cases flag <;> decide
  | cons c rest ih =>
    intro flag
    by_cases hc : isHorizWs c
    · simpa [collapseHorizAux, hc] using ih true
    · cases flag with
      | false =>
        simp only [collapseHorizAux, if_neg hc, List.nil_append, noAdjacentHoriz]
        exact ih false
      | true =>
        simp only [collapseHorizAux, if_neg hc]
        show noAdjacentHoriz false (' ' :: c :: collapseHorizAux false rest) = true
        show (!false && noAdjacentHoriz true (c :: collapseHorizAux false rest)) = true
        simp only [Bool.not_false, Bool.true_and, noAdjacentHoriz, if_neg hc]
        exact ih false

/-- With at least one pending newline the collapse output starts with a
newline. -/
theorem collapseNlAux_head_nl (l : List Char) :
    ∀ n, 1 ≤ n → ∃ t, collapseNlAux n l = '\n' :: t := by
  induction l with
  | nil =>
    intro n hn
    obtain ⟨m, hm⟩ : ∃ m, min n 3 = m + 1 := ⟨min n 3 - 1, by omega⟩
    refine ⟨List.replicate m '\n', ?_⟩
    show List.replicate (min n 3) '\n' = _
    rw [hm, List.replicate_succ]
  | cons c rest ih =>
    intro n hn
    by_cases hc : c = '\n'
    · simpa [collapseNlAux, hc] using ih (n + 1) (by omega)
    · obtain ⟨m, hm⟩ : ∃ m, min n 3 = m + 1 := ⟨min n 3 - 1, by omega⟩
      refine ⟨List.replicate m '\n' ++ c :: collapseNlAux 0 rest, ?_⟩
      simp only [collapseNlAux, if_neg hc]
      rw [hm, List.replicate_succ, List.cons_append]

theorem noAdjacentHoriz_replicate_append (t : List Char) :
    ∀ (m : Nat) (b : Bool), noAdjacentHoriz b (List.replicate m '\n' ++ t)
      = noAdjacentHoriz (if m = 0 then b else false) t := by
  intro m
  induction m with
  | zero => intro b; rfl
  | succ m ih =>
    intro b
    have hstep : List.replicate (m + 1) '\n' ++ t
        = '\n' :: (List.replicate m '\n' ++ t) := by
      rw [List.replicate_succ, List.cons_append]
    rw [hstep]
    show noAdjacentHoriz false (List.replicate m '\n' ++ t) = _
    rw [ih false]
    cases m <;> simp

/-- The newline collapse does not create adjacent horizontal
whitespace. -/
theorem noAdjacentHoriz_collapseNlAux (l : List Char) :
    ∀ (n : Nat) (b : Bool), noAdjacentHoriz b l = true →
      noAdjacentHoriz b (collapseNlAux n l) = true := by
  induction l with
  | nil =>
    intro n b _
    have h := noAdjacentHoriz_replicate_append [] (min n 3) b
    simpa [collapseNlAux] using h
  | cons c rest ih =>
    intro n b h
    by_cases hc : c = '\n'
    · have hrest : noAdjacentHoriz false rest = true := by
        subst hc
        simpa only [noAdjacentHoriz,
          if_neg (by decide : ¬ isHorizWs '\n' = true)] using h
      have hstep : collapseNlAux n (c :: rest) = collapseNlAux (n + 1) rest := by
        simp [collapseNlAux, hc]
      rw [hstep]
      obtain ⟨t, ht⟩ := collapseNlAux_head_nl rest (n + 1) (by omega)
      have hrec := ih (n + 1) false hrest
      rw [ht] at hrec ⊢
      show noAdjacentHoriz false t = true
      exact hrec
    · simp only [collapseNlAux, if_neg hc]
      rw [noAdjacentHoriz_replicate_append]
      by_cases hhw : isHorizWs c
      · have h' : (!b && noAdjacentHoriz true rest) = true := by
          simpa only [noAdjacentHoriz, if_pos hhw] using h
        rw [Bool.and_eq_true, Bool.not_eq_true'] at h'
        obtain ⟨rfl, htr⟩ := h'
        have hrec : noAdjacentHoriz true (collapseNlAux 0 rest) = true :=
          ih 0 true htr
        by_cases hmn : min n 3 = 0
        · rw [if_pos hmn]
          simp only [noAdjacentHoriz, if_pos hhw, Bool.not_false, Bool.true_and]
          exact hrec
        · rw [if_neg hmn]
          simp only [noAdjacentHoriz, if_pos hhw, Bool.not_false, Bool.true_and]
          exact hrec
      · have h' : noAdjacentHoriz false rest = true := by
          simpa only [noAdjacentHoriz, if_neg hhw] using h
        have hrec : noAdjacentHoriz false (collapseNlAux 0 rest) = true :=
          ih 0 false h'
        by_cases hmn : min n 3 = 0
        · rw [if_pos hmn]
          simp only [noAdjacentHoriz, if_neg hhw]
          exact hrec
        · rw [if_neg hmn]
          simp only [noAdjacentHoriz, if_neg hhw]
          exact hrec

theorem head?_dropWhile_not (p : Char → Bool) (l : List Char) :
    ∀ c, (l.dropWhile p).head? = some c → p c = false := by
  induction l with
  | nil => intro c h; simp [List.dropWhile] at h
  | cons d rest ih =>
    intro c h
    by_cases hd : p d
    · exact ih c (by simpa [List.dropWhile, hd] using h)
    · simp only [List.dropWhile, hd] at h
      rw [List.head?_cons] at h
      injection h with h
      subst h
      simpa using hd

/-- The first character surviving `trim` is not whitespace. -/
theorem jsTrim_head_not_ws (l : List Char) :
    ∀ c, (jsTrim l).head? = some c → isJsWs c = false := by
  intro c h
  rw [jsTrim, List.head?_reverse] at h
  rcases he : (l.dropWhile isJsWs).reverse.dropWhile isJsWs with _ | ⟨x, e'⟩
  · rw [he] at h
    simp at h
  · obtain ⟨a2, ha2⟩ := dropWhile_suffix_decomp isJsWs (l.dropWhile isJsWs).reverse
    rw [he] at ha2 h
    have hfull : ((l.dropWhile isJsWs).reverse).getLast? = some c := by
      rw [ha2, List.getLast?_append_of_ne_nil a2 (by simp)]
      exact h
    rw [List.getLast?_reverse] at hfull
    exact head?_dropWhile_not isJsWs l c hfull

/-- The last character surviving `trim` is not whitespace. -/
theorem jsTrim_getLast_not_ws (l : List Char) :
    ∀ c, (jsTrim l).getLast? = some c → isJsWs c = false := by
  intro c h
  rw [jsTrim, List.getLast?_reverse] at h
  exact head?_dropWhile_not isJsWs _ c h

theorem noEdgeWs_jsTrim (l : List Char) : noEdgeWs (jsTrim l) = true := by
  rw [noEdgeWs, Bool.and_eq_true]
  constructor
  · rcases hh : (jsTrim l).head? with _ | c
    · rfl
    · simp [jsTrim_head_not_ws l c hh]
  · rcases hh : (jsTrim l).getLast? with _ | c
    · rfl
    · simp [jsTrim_getLast_not_ws l c hh]

/-- C5 counterexample: the post-processing keeps a run of exactly three
newlines (`/\n{4,}/` only collapses runs of four or more), so
`postProcess "a\n\n\nb"` still contains three consecutive newlines,
contradicting "the output never contains three consecutive newlines". -/
theorem postProcess_keeps_three_newlines :
    postProcess "a\n\n\nb" = "a\n\n\nb"
    ∧ nlRunsLe 2 0 (postProcess "a\n\n\nb").data = false := ⟨rfl, rfl⟩

/-- C5 (amended): the post-processing collapses every run of 1+ (in
particular 2+) horizontal whitespace characters to a single space,
collapses every run of **four** or more newlines to exactly **three**,
and trims leading and trailing whitespace — so the output never
contains four consecutive newlines, has no two adjacent horizontal
whitespace characters, and has no whitespace at either end (runs of
exactly three newlines survive). -/
theorem postProcess_whitespace_discipline (s : String) :
    nlRunsLe 3 0 (postProcess s).data = true
    ∧ noAdjacentHoriz false (postProcess s).data = true
    ∧ noEdgeWs (postProcess s).data = true := by
  have hdata : (postProcess s).data
      = jsTrim (collapseNlAux 0 (collapseHorizAux false s.data)) := rfl
  refine ⟨?_, ?_, ?_⟩
  · rw [hdata]
    exact nlRunsLe_jsTrim _ (nlRunsLe_collapseNlAux _ 0)
  · rw [hdata]
    obtain ⟨a, b, hab⟩ :=
      jsTrim_decomp (collapseNlAux 0 (collapseHorizAux false s.data))
    have h := noAdjacentHoriz_collapseNlAux (collapseHorizAux false s.data) 0 false
      (noAdjacentHoriz_collapseHorizAux s.data false)
    rw [hab, List.append_assoc] at h
    exact noAdjacentHoriz_append_left _ b false
      (noAdjacentHoriz_append_right a _ h)
  · rw [hdata]
    exact noEdgeWs_jsTrim _

/-! ## Filename sanitizer properties -/

/-- The guarantees of the sanitizer that actually hold: non-empty, at
most 100 characters, printable ASCII only, none of the reserved
characters, and no *leading* whitespace. -/
def filenameOk (r : String) : Bool :=
  !r.data.isEmpty && decide (r.data.length ≤ 100)
    && r.data.all (fun c => isPrintableAscii c && !isForbiddenFilenameChar c)
    && (match r.data.head? with
        | some c => !isJsWs c
        | none => true)

/-- Taking a positive prefix keeps the head. -/
theorem head?_take_succ (l : List Char) (n : Nat) :
    (l.take (n + 1)).head? = l.head? := by
  cases l <;> rfl

/-- C10 counterexample: `trim` runs before the 100-character truncation,
so truncation can cut just after internal whitespace and the result ends
in a space — the input `"a" ++ 99 spaces ++ "b"` sanitizes to a string
whose last character is `' '`, contradicting "no leading or trailing
whitespace". -/
theorem filename_truncation_trailing_space :
    (toAsciiFilename ("a" ++ String.mk (List.replicate 99 ' ') ++ "b")).data.getLast?
      = some ' '
    ∧ isJsWs ' ' = true := ⟨rfl, rfl⟩

/-- C10 (amended): for every input the sanitizer returns a non-empty
string of at most 100 characters containing only printable ASCII
(0x20–0x7E) with none of the reserved characters
(`\ / : * ? " < > |`) and no *leading* whitespace — but trailing
whitespace can survive when the 100-character truncation cuts the name
just after internal whitespace, because trimming happens before
truncation.  When sanitization leaves nothing it returns the fixed
default `"wattpad-story"`. -/
theorem filename_sanitizer_guarantees (s : String) :
    filenameOk (toAsciiFilename s) = true
    ∧ toAsciiFilename "" = "wattpad-story"
    ∧ toAsciiFilename "   " = "wattpad-story" := by
  refine ⟨?_, rfl, rfl⟩
  rw [toAsciiFilename]
  by_cases hemp :
      ((jsTrim ((s.data.filter isPrintableAscii).map
        (fun c => if isForbiddenFilenameChar c then '_' else c))).take 100).isEmpty
  · rw [if_pos hemp]
    decide
  · rw [if_neg hemp]
    rw [filenameOk]
    simp only [Bool.and_eq_true, decide_eq_true_eq]
    refine ⟨⟨⟨?_, ?_⟩, ?_⟩, ?_⟩
    · simpa using hemp
    · show (List.take 100 _).length ≤ 100
      rw [List.length_take]
      omega
    · rw [List.all_eq_true]
      intro c hc
      have hc2 : c ∈ jsTrim ((s.data.filter isPrintableAscii).map
          (fun c => if isForbiddenFilenameChar c then '_' else c)) :=
        List.take_subset 100 _ hc
      have hc3 := mem_of_mem_jsTrim hc2
      rw [List.mem_map] at hc3
      obtain ⟨c', hc', hcc⟩ := hc3
      rw [List.mem_filter] at hc'
      by_cases hforb : isForbiddenFilenameChar c'
      · rw [if_pos hforb] at hcc
        subst hcc
        decide
      · rw [if_neg hforb] at hcc
        subst hcc
        simp [hc'.2, hforb]
    · rcases hh : (List.take 100 (jsTrim ((s.data.filter isPrintableAscii).map
          (fun c => if isForbiddenFilenameChar c then '_' else c)))).head? with _ | c
      · simp
      · rw [show (100 : Nat) = 99 + 1 from rfl, head?_take_succ] at hh
        simp [jsTrim_head_not_ws _ c hh]

